import Mathlib

/-!
Verification of the normal-distribution app's data-fetch engine and statistics
module (`src/components/normal-distribution`), as a shallow embedding.

Modelling conventions:
* JavaScript numbers are modelled by `JSQ`: an exact rational together with the
  three non-finite values `nan`, `inf` (+Infinity) and `ninf` (-Infinity), with
  the IEEE-754 special-value propagation rules used by JS arithmetic (signed
  zero is not modelled; no code path under verification distinguishes it).
* Wire timestamps are ISO-8601 UTC strings truncated to seconds.  `Date.parse`
  is injective on such strings, so a wire timestamp is represented by its
  parsed epoch-millisecond value (a `Nat`, always a multiple of 1000 on the
  wire).  `toIXONISOString` models `Date.parse ∘ _toIXONISOString`, i.e. the
  truncation of an epoch-millisecond value to whole seconds.
* The remote DataList endpoint is abstracted as a synthetic `Backend`: a fixed
  point list served under offset/limit pagination, plus the (optional) raw
  point answered by the look-back (back-fill) query.  Network transport,
  headers and identity resolution are outside the verified core.
-/

/-- Model of a JavaScript number: an exact rational, or one of the IEEE-754
special values NaN, +Infinity, -Infinity. -/
inductive JSQ where
  | num (q : ℚ)
  | nan
  | inf
  | ninf
deriving DecidableEq, Repr

/-- JS unary minus. -/
def jneg : JSQ → JSQ
  | .num a => .num (-a)
  | .nan => .nan
  | .inf => .ninf
  | .ninf => .inf

/-- JS addition. -/
def jadd : JSQ → JSQ → JSQ
  | .num a, .num b => .num (a + b)
  | .num _, .inf => .inf
  | .num _, .ninf => .ninf
  | .inf, .num _ => .inf
  | .ninf, .num _ => .ninf
  | .inf, .inf => .inf
  | .ninf, .ninf => .ninf
  | .inf, .ninf => .nan
  | .ninf, .inf => .nan
  | .nan, _ => .nan
  | _, .nan => .nan

/-- JS subtraction (equal to addition of the negation). -/
def jsub (a b : JSQ) : JSQ := jadd a (jneg b)

/-- JS multiplication. -/
def jmul : JSQ → JSQ → JSQ
  | .num a, .num b => .num (a * b)
  | .num a, .inf => if a = 0 then .nan else if 0 < a then .inf else .ninf
  | .num a, .ninf => if a = 0 then .nan else if 0 < a then .ninf else .inf
  | .inf, .num b => if b = 0 then .nan else if 0 < b then .inf else .ninf
  | .ninf, .num b => if b = 0 then .nan else if 0 < b then .ninf else .inf
  | .inf, .inf => .inf
  | .inf, .ninf => .ninf
  | .ninf, .inf => .ninf
  | .ninf, .ninf => .inf
  | .nan, _ => .nan
  | _, .nan => .nan

/-- JS division (signed zero not modelled: finite/0 follows the sign of the
numerator, matching the `+0` divisors that actually occur in this code). -/
def jdiv : JSQ → JSQ → JSQ
  | .num a, .num b =>
      if b = 0 then (if a = 0 then .nan else if 0 < a then .inf else .ninf)
      else .num (a / b)
  | .num _, .inf => .num 0
  | .num _, .ninf => .num 0
  | .inf, .num b => if 0 ≤ b then .inf else .ninf
  | .ninf, .num b => if 0 ≤ b then .ninf else .inf
  | .inf, .inf => .nan
  | .inf, .ninf => .nan
  | .ninf, .inf => .nan
  | .ninf, .ninf => .nan
  | .nan, _ => .nan
  | _, .nan => .nan

/-- JS `<=` comparison (false whenever NaN is involved). -/
def jleB : JSQ → JSQ → Bool
  | .num a, .num b => decide (a ≤ b)
  | .num _, .inf => true
  | .num _, .ninf => false
  | .inf, .num _ => false
  | .ninf, .num _ => true
  | .inf, .inf => true
  | .ninf, .ninf => true
  | .inf, .ninf => false
  | .ninf, .inf => true
  | .nan, _ => false
  | _, .nan => false

/-- JS `<` comparison (false whenever NaN is involved). -/
def jltB : JSQ → JSQ → Bool
  | .num a, .num b => decide (a < b)
  | .num _, .inf => true
  | .num _, .ninf => false
  | .inf, .num _ => false
  | .ninf, .num _ => true
  | .inf, .inf => false
  | .ninf, .ninf => false
  | .inf, .ninf => false
  | .ninf, .inf => true
  | .nan, _ => false
  | _, .nan => false

/-- JS global `isNaN` on a number. -/
def jsIsNaN : JSQ → Bool
  | .nan => true
  | _ => false

/-- JS `Number.isFinite`. -/
def jsIsFinite : JSQ → Bool
  | .num _ => true
  | _ => false

/-- JS `x || 0` applied to a possibly-missing number (`undefined`, `NaN` and
`0` are falsy and yield `0`). -/
def jsOrZero : Option JSQ → JSQ
  | none => .num 0
  | some .nan => .num 0
  | some (.num q) => .num q
  | some .inf => .inf
  | some .ninf => .ninf

/-- A wire point of the DataList response (`Metric` in `data.service.ts`):
its parsed timestamp in epoch ms and its `values` object as an association
list from tag slug to number. -/
structure Metric where
  time : ℕ
  values : List (String × JSQ)
deriving DecidableEq, Repr

/-- A synthetic DataList backend for one fixed time window: the full ascending
point list served under offset/limit pagination, and the raw point (if any)
that the look-back query over `[epoch 0, window.from)` answers with. -/
structure Backend where
  points : List Metric
  backfill : Option Metric
deriving DecidableEq, Repr

/-- Models `Date.parse (_toIXONISOString ms)`: `_toIXONISOString` drops the
fractional-second part of the ISO string, so the parsed value is `ms` rounded
down to a whole second. -/
def toIXONISOString (ms : ℕ) : ℕ := ms / 1000 * 1000

/-- `_getLastPointOfPreviousPeriod`: if the look-back query returns a point,
its reported bucket-start time is replaced by `end`, the (truncated) ISO
string of `timeRange.from`. -/
def getLastPointOfPreviousPeriod (B : Backend) (timeRangeFrom : ℕ) : Option Metric :=
  match B.backfill with
  | none => none
  | some p => some { time := toIXONISOString timeRangeFrom, values := p.values }

/-- `_fetchRawDataPage` on the synthetic backend (success path: the synthetic
backend never rate-limits; the retry/backoff logic is modelled separately by
`fetchRawDataPageRetry`): one page of `limit` points at `offset`, ascending. -/
def fetchRawDataPage (B : Backend) (offset limit : ℕ) : List Metric :=
  (B.points.drop offset).take limit

/-- `_getAllRawMetrics`, the sequential pagination strategy: fetch pages of
5000 at increasing offsets while full pages come back, then append the
back-fill point (if any) after the collected page data. -/
def getAllRawMetricsSeq (B : Backend) (timeRangeFrom : ℕ) (hasNext : Bool) (offset : ℕ)
    (metrics : List Metric) : List Metric :=
  if hasNext then
    let page := fetchRawDataPage B offset 5000
    getAllRawMetricsSeq B timeRangeFrom (page.length == 5000) (offset + 5000)
      (metrics ++ page)
  else
    match getLastPointOfPreviousPeriod B timeRangeFrom with
    | some p => metrics ++ [p]
    | none => metrics
termination_by (if hasNext then 1 else 0) + (B.points.length + 1 - offset)
decreasing_by
  rename_i h
  have hlen : (fetchRawDataPage B offset 5000).length = min 5000 (B.points.length - offset) := by
    simp [fetchRawDataPage]
  rw [h, if_pos rfl]
  by_cases hp : (fetchRawDataPage B offset 5000).length = 5000
  · rw [if_pos (by simp [hp])]
    omega
  · rw [if_neg (by simp [hp])]
    omega

/-- State of `_fetchWithConcurrencyLimit`: the in-flight registry (the
`executing` map's keys, in insertion order), the index-addressed results
buffer, plus two observation logs used to state the scheduler's contract —
the registry size recorded right after each insertion (where it peaks), and
the task indices in the order their thunks were started. -/
structure Sched (T : Type) where
  executing : List ℕ
  results : ℕ → Option T
  sizeLog : List ℕ
  started : List ℕ

/-- The set of in-flight tasks that have settled by the time an
`await Promise.race(executing.values())` returns: an arbitrary nonempty subset
of the registry, chosen by the environment `mask`; the race cannot return
before at least one in-flight task settles, so an all-false mask degrades to
completing the oldest in-flight task. -/
def selectDone (mask : ℕ → Bool) (l : List ℕ) : List ℕ :=
  let c := l.filter mask
  if c.isEmpty then l.take 1 else c

/-- Settling of the tasks in `done`: each records its result in its own slot
and deletes itself from the in-flight registry (the `finally` block). -/
def completeTasks {T : Type} (f : ℕ → T) (done : List ℕ) (s : Sched T) : Sched T :=
  { executing := s.executing.filter (fun j => decide (j ∉ done))
    results := fun j => if j ∈ done then some (f j) else s.results j
    sizeLog := s.sizeLog
    started := s.started }

/-- One iteration of the submission loop of `_fetchWithConcurrencyLimit`:
start task `i`, register it, and if the registry has reached `maxConcurrent`,
block on `Promise.race` until some nonempty subset of in-flight tasks
(chosen by the environment oracle) settles. -/
def schedStep {T : Type} (f : ℕ → T) (maxConcurrent : ℕ) (oracle : ℕ → ℕ → Bool)
    (s : Sched T) (i : ℕ) : Sched T :=
  let s1 : Sched T :=
    { executing := s.executing ++ [i]
      results := s.results
      sizeLog := s.sizeLog ++ [s.executing.length + 1]
      started := s.started ++ [i] }
  if maxConcurrent ≤ s1.executing.length then
    completeTasks f (selectDone (oracle i) s1.executing) s1
  else s1

/-- `_fetchWithConcurrencyLimit` over `n` task thunks `f 0, …, f (n-1)`:
submit the tasks in order under the registry cap, then
`await Promise.all` settles every task still in flight. -/
def fetchWithConcurrencyLimit {T : Type} (f : ℕ → T) (n maxConcurrent : ℕ)
    (oracle : ℕ → ℕ → Bool) : Sched T :=
  let s := (List.range n).foldl (schedStep f maxConcurrent oracle)
    { executing := [], results := fun _ => none, sizeLog := [], started := [] }
  completeTasks f s.executing s

/-- `_getAllRawMetricsParallel` on the synthetic backend (which answers the
count query truthfully): count, then either the back-fill-only path, the
single-page path, or concurrency-limited page fetches merged and sorted by
parsed timestamp.  Progress callbacks have no effect on the result and are
not modelled. -/
def getAllRawMetricsParallel (B : Backend) (timeRangeFrom : ℕ)
    (oracle : ℕ → ℕ → Bool) : List Metric :=
  let totalCount := B.points.length
  if totalCount = 0 then
    match getLastPointOfPreviousPeriod B timeRangeFrom with
    | some p => [p]
    | none => []
  else if totalCount ≤ 5000 then
    let data := fetchRawDataPage B 0 5000
    match getLastPointOfPreviousPeriod B timeRangeFrom with
    | some p => data ++ [p]
    | none => data
  else
    let pagesNeeded := (totalCount + 4999) / 5000
    let sched := fetchWithConcurrencyLimit
      (fun i => fetchRawDataPage B (i * 5000) 5000) pagesNeeded 10 oracle
    let allMetrics :=
      ((List.range pagesNeeded).map (fun i => (sched.results i).getD [])).flatten
    let withLast :=
      match getLastPointOfPreviousPeriod B timeRangeFrom with
      | some p => allMetrics ++ [p]
      | none => allMetrics
    withLast.mergeSort (fun a b => decide (a.time ≤ b.time))

/-- The JSON body of a count-query response: `data` may be absent, and the
`points` list inside it may be empty or lack a value for the tag. -/
structure CountResponseData where
  points : List Metric
deriving DecidableEq, Repr

/-- A count-query response as consumed by `_getTotalCount`. -/
structure CountResponse where
  data : Option CountResponseData
deriving DecidableEq, Repr

/-- The result-extraction step of `_getTotalCount`:
`response.data?.points?.[0]?.values?.[tagSlug] || 0`. -/
def getTotalCount (resp : CountResponse) (tag : String) : JSQ :=
  jsOrZero ((resp.data.bind (fun d => d.points.head?)).bind
    (fun p => p.values.lookup tag))

/-- One HTTP response to a page fetch: its status code and, for the body,
`data.data?.points` (absent models a body without points). -/
structure PageResponse where
  status : ℕ
  data : Option (List Metric)
deriving DecidableEq, Repr

/-- Observable behaviour of one `_fetchRawDataPage` call: how many requests
were issued, the backoff waits (ms) in chronological order, and the returned
point list. -/
structure FetchTrace where
  attempts : ℕ
  waits : List ℕ
  result : List Metric
deriving DecidableEq, Repr

/-- `_fetchRawDataPage` against an abstract backend: `resp k` is the response
to the k-th request of this call.  On status 429 with retries remaining it
waits `(4 - retries) * 1000` ms and recurses with one retry fewer; otherwise
it returns `data.data?.points || []`. -/
def fetchRawDataPageRetry (resp : ℕ → PageResponse) (attempt : ℕ) (retries : ℕ) :
    FetchTrace :=
  let r := resp attempt
  if h : r.status = 429 ∧ 0 < retries then
    let t := fetchRawDataPageRetry resp (attempt + 1) (retries - 1)
    { attempts := t.attempts + 1
      waits := (4 - retries) * 1000 :: t.waits
      result := t.result }
  else
    { attempts := 1, waits := [], result := r.data.getD [] }
termination_by retries
decreasing_by
  omega

/-- `Math.exp` lifted to `JSQ`.  On finite arguments the float result is an
implementation-defined finite approximation, abstracted as a parameter `E`;
the special values follow JS: `exp NaN = NaN`, `exp ∞ = ∞`, `exp (-∞) = 0`. -/
def jexp (E : ℚ → ℚ) : JSQ → JSQ
  | .num q => .num (E q)
  | .nan => .nan
  | .inf => .inf
  | .ninf => .num 0

/-- `normalDistribution` from `statistics.ts`:
`(1 / (sd * Math.sqrt(2 * Math.PI))) * Math.exp(-0.5 * ((x - mean) / sd)^2)`.
`Math.sqrt(2 * Math.PI)` is a positive finite float constant, abstracted as
the parameter `sqrt2pi`. -/
def normalDistribution (E : ℚ → ℚ) (sqrt2pi : ℚ) (x mean standardDeviation : JSQ) :
    JSQ :=
  jmul (jdiv (.num 1) (jmul standardDeviation (.num sqrt2pi)))
    (jexp E (jmul (.num (-(1/2)))
      (jmul (jdiv (jsub x mean) standardDeviation)
        (jdiv (jsub x mean) standardDeviation))))

/-- The `for` loop of `generateNormalDistributionData`, step-indexed:
`ndLoop … x fuel = none` means the loop performs at least `fuel` further
iterations starting from loop variable `x` (so `∀ fuel, … = none` is
non-termination); `some l` collects the `(x, y)` pairs pushed onto
`xValues`/`yValues`. -/
def ndLoop (E : ℚ → ℚ) (sqrt2pi : ℚ) (mean standardDeviation dataLengthJ binSize hi : JSQ) :
    JSQ → ℕ → Option (List (JSQ × JSQ))
  | _, 0 => none
  | x, fuel + 1 =>
    if jleB x hi then
      match ndLoop E sqrt2pi mean standardDeviation dataLengthJ binSize hi
          (jadd x binSize) fuel with
      | none => none
      | some rest =>
        some ((x, jmul (jmul (normalDistribution E sqrt2pi x mean standardDeviation)
          dataLengthJ) binSize) :: rest)
    else some []

/-- `generateNormalDistributionData(mean, standardDeviation, dataLength,
binSize, maxY)`: empty when `dataLength <= 1`; otherwise it samples the scaled
density from `mean - 5*sd` up to `mean + 5*sd` in steps of `binSize`, takes
the running maximum `maxYDistrib` (initialised to 0, only updated when
`y > maxYDistrib`), and rescales every sample by `maxY / maxYDistrib`.
Step-indexed via `fuel`; `none` for every `fuel` models the loop not
terminating. -/
def generateNormalDistributionData (E : ℚ → ℚ) (sqrt2pi : ℚ)
    (mean standardDeviation : JSQ) (dataLength : ℕ) (binSize maxY : JSQ)
    (fuel : ℕ) : Option (List (JSQ × JSQ)) :=
  if dataLength ≤ 1 then some []
  else
    let lo := jsub mean (jmul (.num 5) standardDeviation)
    let hi := jadd mean (jmul (.num 5) standardDeviation)
    match ndLoop E sqrt2pi mean standardDeviation (.num (dataLength : ℚ)) binSize hi
        lo fuel with
    | none => none
    | some xys =>
      let maxYDistrib := (xys.map Prod.snd).foldl
        (fun m y => if jltB m y then y else m) (.num 0)
      let scaleR := jdiv maxY maxYDistrib
      some (xys.map (fun p => (p.1, jmul p.2 scaleR)))

/-- `parseFloat(v.toFixed(decimals))` on a `JSQ` value, under exact decimal
arithmetic: the nearest multiple of `10^(-decimals)`, ties toward the larger
value (ECMA-262 `Number.prototype.toFixed`); NaN and the infinities round-trip
through `"NaN"` / `"Infinity"` unchanged. -/
def jsToFixedParse (decimals : ℕ) : JSQ → JSQ
  | .num q => .num ((⌊q * 10 ^ decimals + 1 / 2⌋ : ℤ) / (10 ^ decimals : ℚ))
  | .nan => .nan
  | .inf => .inf
  | .ninf => .ninf

/-- The post-processing pipeline of `getAllRawMetrics` (lines 84–93 of
`data.service.ts`): parse each wire point into `{time, value}` (a missing
`values[tagSlug]` entry is `undefined`, which behaves as NaN in the
subsequent `isNaN` filter and is modelled as such), drop the points whose
value fails `!isNaN`, then apply the factor and round to `decimals`. -/
def processMetrics (tag : String) (factor : JSQ) (decimals : ℕ)
    (allMetrics : List Metric) : List (ℕ × JSQ) :=
  ((allMetrics.map (fun x => (x.time, (x.values.lookup tag).getD JSQ.nan))).filter
      (fun d => !jsIsNaN d.2)).map
    (fun d => (d.1, jsToFixedParse decimals (jmul d.2 factor)))

/-- `getAllRawMetrics` after identity resolution succeeded: the parallel
retrieval strategy followed by the parse/filter/scale pipeline. -/
def getAllRawMetricsModel (B : Backend) (timeRangeFrom : ℕ)
    (oracle : ℕ → ℕ → Bool) (tag : String) (factor : JSQ) (decimals : ℕ) :
    List (ℕ × JSQ) :=
  processMetrics tag factor decimals (getAllRawMetricsParallel B timeRangeFrom oracle)

/-- The `mean` of `calculateStatistics` in `statistics.ts`:
`data.reduce((acc, d) => acc + d.value, 0) / n`.  Values are the exact
rationals of the already-filtered finite data. -/
def calculateStatisticsMean (data : List (ℕ × ℚ)) : ℚ :=
  data.foldl (fun acc d => acc + d.2) 0 / (data.length : ℚ)

/-- The `variance` of `calculateStatistics`:
`data.reduce((acc, d) => acc + Math.pow(d.value - mean, 2), 0) / n`. -/
def calculateStatisticsVariance (data : List (ℕ × ℚ)) : ℚ :=
  data.foldl (fun acc d => acc + (d.2 - calculateStatisticsMean data) ^ 2) 0 /
    (data.length : ℚ)

/-- `calculateStatistics`: the pair `(mean, standardDeviation)` with
`standardDeviation = Math.sqrt(variance)`, idealised as the real square
root. -/
noncomputable def calculateStatistics (data : List (ℕ × ℚ)) : ℚ × ℝ :=
  (calculateStatisticsMean data,
    Real.sqrt ((calculateStatisticsVariance data : ℚ) : ℝ))

/-- The data-preparation steps of `ChartService.getDataAndDraw` between the
fetch and the call to `calculateStatistics` (chart.service.ts lines 51–71):
`null` data or an empty list raises "No data available", then — after those
checks — `ignoreZero` filters out zero values.  `.ok l` is the list actually
passed to `calculateStatistics`. -/
def statisticsInput (data : Option (List (ℕ × ℚ))) (ignoreZero : Bool) :
    Except String (List (ℕ × ℚ)) :=
  match data with
  | none => .error "No data available"
  | some d =>
    if d.length = 0 then .error "No data available"
    else .ok (if ignoreZero then d.filter (fun p => decide (p.2 ≠ 0)) else d)

/-- The sample of the spec's scenario: values `[1, 2, 3, 4, 5]` at times
`[0, 1, 2, 3, 4]`. -/
def exampleData : List (ℕ × ℚ) := [(0, 1), (1, 2), (2, 3), (3, 4), (4, 5)]

/-- Concrete backend: one in-window point at 5 s and a look-back point; used
to exhibit the back-fill point being appended after later page data. -/
def unsortedBackend : Backend :=
  { points := [{ time := 5000, values := [("t", JSQ.num 1)] }]
    backfill := some { time := 0, values := [("t", JSQ.num 2)] } }

/-- Concrete backend with 5001 in-window points (two pages), for the
multi-page parallel path. -/
def largeBackend : Backend :=
  { points := (List.range 5001).map (fun i => { time := i * 1000, values := [] })
    backfill := none }

/-- Concrete backend whose only point carries the value +Infinity. -/
def infValueBackend : Backend :=
  { points := [{ time := 0, values := [("t", JSQ.inf)] }]
    backfill := none }

/-- Concrete backend with no in-window points and a look-back point; used with
the sub-second window start 500 ms. -/
def subSecondBackend : Backend :=
  { points := []
    backfill := some { time := 0, values := [("t", JSQ.num 7)] } }

/-- The scheduler invariant carried through the submission loop: the in-flight
registry stays strictly below the cap between awaits, every task in the
tracked set `S` has either recorded its result in its own slot or is still in
flight, and every registry size observed so far is at most the cap. -/
def SchedInv {T : Type} (f : ℕ → T) (maxConcurrent : ℕ) (S : ℕ → Prop)
    (s : Sched T) : Prop :=
  s.executing.length < maxConcurrent ∧
  (∀ j, S j → s.results j = some (f j) ∨ j ∈ s.executing) ∧
  (∀ x ∈ s.sizeLog, x ≤ maxConcurrent)

/-- A backend that answers every request with a rate-limit response whose body
has no points. -/
def alwaysRateLimited : ℕ → PageResponse := fun _ => { status := 429, data := none }

lemma getAllRawMetricsSeq_false (B : Backend) (t offset : ℕ) (metrics : List Metric) :
    getAllRawMetricsSeq B t false offset metrics =
      metrics ++ (getLastPointOfPreviousPeriod B t).toList := by
  rw [getAllRawMetricsSeq]
  cases hbf : getLastPointOfPreviousPeriod B t <;> simp [hbf]

lemma getAllRawMetricsSeq_true_step (B : Backend) (t offset : ℕ) (metrics : List Metric) :
    getAllRawMetricsSeq B t true offset metrics =
      getAllRawMetricsSeq B t ((fetchRawDataPage B offset 5000).length == 5000)
        (offset + 5000) (metrics ++ fetchRawDataPage B offset 5000) := by
  rw [getAllRawMetricsSeq]
  simp

lemma getAllRawMetricsSeq_true_eq_aux (B : Backend) (t : ℕ) :
    ∀ (k offset : ℕ) (metrics : List Metric), B.points.length - offset ≤ k →
      getAllRawMetricsSeq B t true offset metrics =
        metrics ++ B.points.drop offset ++ (getLastPointOfPreviousPeriod B t).toList := by
  intro k
  induction k with
  | zero =>
    intro offset metrics h
    have hdrop : B.points.drop offset = [] := List.drop_eq_nil_of_le (by omega)
    have hpage : fetchRawDataPage B offset 5000 = [] := by
      simp [fetchRawDataPage, hdrop]
    rw [getAllRawMetricsSeq_true_step, hpage]
    have : (([] : List Metric).length == 5000) = false := by decide
    rw [this, getAllRawMetricsSeq_false]
    simp [hdrop]
  | succ k ih =>
    intro offset metrics h
    have hlen : (fetchRawDataPage B offset 5000).length =
        min 5000 (B.points.length - offset) := by
      simp [fetchRawDataPage]
    rw [getAllRawMetricsSeq_true_step]
    by_cases hp : (fetchRawDataPage B offset 5000).length = 5000
    · have hbeq : ((fetchRawDataPage B offset 5000).length == 5000) = true := by
        simp [hp]
      rw [hbeq, ih (offset + 5000) _ (by omega)]
      have hsplit : fetchRawDataPage B offset 5000 ++ B.points.drop (offset + 5000) =
          B.points.drop offset := by
        have hdd : B.points.drop (offset + 5000) = (B.points.drop offset).drop 5000 := by
          rw [List.drop_drop]
        rw [hdd]
        exact List.take_append_drop 5000 (B.points.drop offset)
      rw [List.append_assoc metrics, hsplit]
    · have hbeq : ((fetchRawDataPage B offset 5000).length == 5000) = false := by
        simp [hp]
      rw [hbeq, getAllRawMetricsSeq_false]
      have hpage : fetchRawDataPage B offset 5000 = B.points.drop offset := by
        unfold fetchRawDataPage
        exact List.take_of_length_le (by simp; omega)
      rw [hpage, List.append_assoc]

/-- The sequential strategy returns exactly the backend's page data followed by
the back-fill point (if any), appended last. -/
lemma getAllRawMetricsSeq_eq (B : Backend) (t : ℕ) :
    getAllRawMetricsSeq B t true 0 [] =
      B.points ++ (getLastPointOfPreviousPeriod B t).toList := by
  have := getAllRawMetricsSeq_true_eq_aux B t B.points.length 0 [] (by omega)
  simpa using this

lemma flatten_chunks {α : Type} (n : ℕ) (hn : 0 < n) :
    ∀ (k : ℕ) (l : List α), l.length ≤ k →
      ((List.range ((l.length + (n - 1)) / n)).map
        (fun i => (l.drop (i * n)).take n)).flatten = l := by
  intro k
  induction k with
  | zero =>
    intro l h
    have hl : l = [] := List.length_eq_zero.mp (by omega)
    subst hl
    have hz : (n - 1) / n = 0 := Nat.div_eq_of_lt (by omega)
    simp [hz]
  | succ k ih =>
    intro l h
    by_cases h0 : l.length = 0
    · have hl : l = [] := List.length_eq_zero.mp h0
      subst hl
      have hz : (n - 1) / n = 0 := Nat.div_eq_of_lt (by omega)
      simp [hz]
    · by_cases hle : l.length ≤ n
      · have hlo : 1 * n ≤ l.length + (n - 1) := by omega
        have hhi : l.length + (n - 1) < (1 + 1) * n := by omega
        have hpages : (l.length + (n - 1)) / n = 1 := Nat.div_eq_of_lt_le hlo hhi
        rw [hpages]
        have hr1 : List.range 1 = [0] := rfl
        rw [hr1]
        simp only [List.map_cons, List.map_nil, List.flatten_cons, List.flatten_nil,
          Nat.zero_mul, List.drop_zero, List.append_nil]
        exact List.take_of_length_le hle
      · have hdroplen : (l.drop n).length = l.length - n := by simp
        have hpages : (l.length + (n - 1)) / n =
            ((l.drop n).length + (n - 1)) / n + 1 := by
          rw [hdroplen]
          have heq : l.length + (n - 1) = (l.length - n + (n - 1)) + n := by omega
          rw [heq, Nat.add_div_right _ hn]
        rw [hpages, List.range_succ_eq_map]
        simp only [List.map_cons, List.map_map, List.flatten_cons, Nat.zero_mul,
          List.drop_zero]
        have htail : ((List.range (((l.drop n).length + (n - 1)) / n)).map
            ((fun i => (l.drop (i * n)).take n) ∘ Nat.succ)) =
            ((List.range (((l.drop n).length + (n - 1)) / n)).map
              (fun i => ((l.drop n).drop (i * n)).take n)) := by
          apply List.map_congr_left
          intro i _
          have hmul : Nat.succ i * n = n + i * n := by
            rw [Nat.succ_eq_add_one]
            ring
          simp only [Function.comp_apply, List.drop_drop, hmul]
        rw [htail, ih (l.drop n) (by omega)]
        exact List.take_append_drop n l

lemma selectDone_exists_mem (mask : ℕ → Bool) (l : List ℕ) (hl : l ≠ []) :
    ∃ x, x ∈ selectDone mask l ∧ x ∈ l := by
  unfold selectDone
  by_cases hc : (l.filter mask).isEmpty
  · rw [if_pos hc]
    cases l with
    | nil => exact absurd rfl hl
    | cons a t => exact ⟨a, by simp⟩
  · rw [if_neg hc]
    have hne : l.filter mask ≠ [] := fun hnil => hc (by simp [hnil])
    obtain ⟨x, hx⟩ := List.exists_mem_of_ne_nil _ hne
    exact ⟨x, hx, (List.mem_filter.mp hx).1⟩

lemma length_filter_lt_of_mem {l : List ℕ} {x : ℕ} (p : ℕ → Bool)
    (hx : x ∈ l) (hpx : p x = false) : (l.filter p).length < l.length := by
  induction l with
  | nil => cases hx
  | cons a t ih =>
    rcases List.mem_cons.mp hx with rfl | hxt
    · rw [List.filter_cons, hpx]
      have := List.length_filter_le p t
      simp only [Bool.false_eq_true, if_false, List.length_cons]
      omega
    · rw [List.filter_cons]
      cases hpa : p a
      · have := List.length_filter_le p t
        simp only [Bool.false_eq_true, if_false, List.length_cons]
        omega
      · simp only [if_true, List.length_cons]
        exact Nat.succ_lt_succ (ih hxt)

lemma SchedInv_mono {T : Type} {f : ℕ → T} {maxConcurrent : ℕ} {S S' : ℕ → Prop}
    {s : Sched T} (hss : ∀ j, S' j → S j) (h : SchedInv f maxConcurrent S s) :
    SchedInv f maxConcurrent S' s :=
  ⟨h.1, fun j hj => h.2.1 j (hss j hj), h.2.2⟩

lemma schedStep_inv {T : Type} (f : ℕ → T) (maxConcurrent : ℕ)
    (oracle : ℕ → ℕ → Bool) (S : ℕ → Prop) (s : Sched T) (i : ℕ)
    (h : SchedInv f maxConcurrent S s) :
    SchedInv f maxConcurrent (fun j => S j ∨ j = i)
      (schedStep f maxConcurrent oracle s i) := by
  obtain ⟨hlen, hres, hlog⟩ := h
  unfold schedStep
  simp only
  by_cases hful : maxConcurrent ≤ (s.executing ++ [i]).length
  · rw [if_pos hful]
    have hlen1 : (s.executing ++ [i]).length = s.executing.length + 1 := by simp
    obtain ⟨x, hxdone, hxmem⟩ :=
      selectDone_exists_mem (oracle i) (s.executing ++ [i]) (by simp)
    refine ⟨?_, ?_, ?_⟩
    · have hdec : (fun j => decide (j ∉ selectDone (oracle i) (s.executing ++ [i]))) x
          = false := by simp [hxdone]
      have := length_filter_lt_of_mem
        (fun j => decide (j ∉ selectDone (oracle i) (s.executing ++ [i]))) hxmem hdec
      simp only [completeTasks]
      omega
    · intro j hj
      simp only [completeTasks]
      by_cases hjdone : j ∈ selectDone (oracle i) (s.executing ++ [i])
      · rw [if_pos hjdone]
        exact Or.inl rfl
      · rw [if_neg hjdone]
        rcases hj with hSj | rfl
        · rcases hres j hSj with hr | hexec
          · exact Or.inl hr
          · refine Or.inr (List.mem_filter.mpr ⟨List.mem_append_left _ hexec, by
              simp [hjdone]⟩)
        · refine Or.inr (List.mem_filter.mpr ⟨List.mem_append_right _ (by simp), by
            simp [hjdone]⟩)
    · intro x hx
      simp only [completeTasks] at hx
      rcases List.mem_append.mp hx with hold | hnew
      · exact hlog x hold
      · simp only [List.mem_singleton] at hnew
        omega
  · rw [if_neg hful]
    have hlt : s.executing.length + 1 < maxConcurrent := by
      simp only [List.length_append, List.length_cons, List.length_nil] at hful
      omega
    refine ⟨?_, ?_, ?_⟩
    · show (s.executing ++ [i]).length < maxConcurrent
      simp only [List.length_append, List.length_cons, List.length_nil]
      omega
    · intro j hj
      rcases hj with hSj | rfl
      · rcases hres j hSj with hr | hexec
        · exact Or.inl hr
        · exact Or.inr (List.mem_append_left _ hexec)
      · exact Or.inr (List.mem_append_right _ (by simp))
    · intro x hx
      rcases List.mem_append.mp hx with hold | hnew
      · exact hlog x hold
      · simp only [List.mem_singleton] at hnew
        omega

lemma sched_foldl_inv {T : Type} (f : ℕ → T) (maxConcurrent : ℕ)
    (oracle : ℕ → ℕ → Bool) :
    ∀ (l : List ℕ) (S : ℕ → Prop) (s : Sched T), SchedInv f maxConcurrent S s →
      SchedInv f maxConcurrent (fun j => S j ∨ j ∈ l)
        (l.foldl (schedStep f maxConcurrent oracle) s) := by
  intro l
  induction l with
  | nil =>
    intro S s h
    simp only [List.foldl_nil]
    exact SchedInv_mono (fun j hj => by simpa using hj) h
  | cons a t ih =>
    intro S s h
    rw [List.foldl_cons]
    have h1 := schedStep_inv f maxConcurrent oracle S s a h
    have h2 := ih (fun j => S j ∨ j = a) (schedStep f maxConcurrent oracle s a) h1
    refine SchedInv_mono (fun j hj => ?_) h2
    rcases hj with hS | hmem
    · exact Or.inl (Or.inl hS)
    · rcases List.mem_cons.mp hmem with rfl | hmt
      · exact Or.inl (Or.inr rfl)
      · exact Or.inr hmt

lemma sched_foldl_started {T : Type} (f : ℕ → T) (maxConcurrent : ℕ)
    (oracle : ℕ → ℕ → Bool) :
    ∀ (l : List ℕ) (s : Sched T),
      (l.foldl (schedStep f maxConcurrent oracle) s).started = s.started ++ l := by
  intro l
  induction l with
  | nil => intro s; simp
  | cons a t ih =>
    intro s
    rw [List.foldl_cons, ih]
    have hstep : (schedStep f maxConcurrent oracle s a).started = s.started ++ [a] := by
      unfold schedStep
      by_cases hful : maxConcurrent ≤ (s.executing ++ [a]).length
      · rw [if_pos hful]
        rfl
      · rw [if_neg hful]
    rw [hstep]
    simp

/-- The scheduler's contract, for every completion oracle: tasks start in
submission order, no observed registry size exceeds the cap, and slot `i` of
the results buffer ends up holding task `i`'s result. -/
lemma fetchWithConcurrencyLimit_spec {T : Type} (f : ℕ → T) (n maxConcurrent : ℕ)
    (oracle : ℕ → ℕ → Bool) (hmc : 1 ≤ maxConcurrent) :
    (fetchWithConcurrencyLimit f n maxConcurrent oracle).started = List.range n ∧
    (∀ x ∈ (fetchWithConcurrencyLimit f n maxConcurrent oracle).sizeLog,
      x ≤ maxConcurrent) ∧
    (∀ i, i < n →
      (fetchWithConcurrencyLimit f n maxConcurrent oracle).results i = some (f i)) := by
  unfold fetchWithConcurrencyLimit
  simp only
  have hinv0 : SchedInv f maxConcurrent (fun _ => False)
      ({ executing := [], results := fun _ => none, sizeLog := [], started := [] } :
        Sched T) := by
    refine ⟨by simpa using hmc, fun j hj => absurd hj (by simp), by simp⟩
  have hinv := sched_foldl_inv f maxConcurrent oracle (List.range n) (fun _ => False)
    _ hinv0
  have hstarted := sched_foldl_started f maxConcurrent oracle (List.range n)
    ({ executing := [], results := fun _ => none, sizeLog := [], started := [] } :
      Sched T)
  refine ⟨?_, ?_, ?_⟩
  · simp only [completeTasks]
    simpa using hstarted
  · intro x hx
    simp only [completeTasks] at hx
    exact hinv.2.2 x hx
  · intro i hi
    have hres := hinv.2.1 i (Or.inr (List.mem_range.mpr hi))
    simp only [completeTasks]
    rcases hres with hr | hexec
    · by_cases hm : i ∈ ((List.range n).foldl (schedStep f maxConcurrent oracle)
          { executing := [], results := fun _ => none, sizeLog := [],
            started := [] }).executing
      · rw [if_pos hm]
      · rw [if_neg hm]
        exact hr
    · rw [if_pos hexec]

/-- The parallel strategy returns, up to order, exactly the backend's page
data plus the back-fill point (if any), for every completion oracle. -/
lemma getAllRawMetricsParallel_perm (B : Backend) (t : ℕ) (oracle : ℕ → ℕ → Bool) :
    (getAllRawMetricsParallel B t oracle).Perm
      (B.points ++ (getLastPointOfPreviousPeriod B t).toList) := by
  unfold getAllRawMetricsParallel
  simp only
  by_cases h0 : B.points.length = 0
  · have hnil : B.points = [] := List.length_eq_zero.mp h0
    rw [if_pos h0, hnil]
    cases hbf : getLastPointOfPreviousPeriod B t <;> simp [hbf]
  · rw [if_neg h0]
    by_cases h5 : B.points.length ≤ 5000
    · rw [if_pos h5]
      have hpage : fetchRawDataPage B 0 5000 = B.points := by
        unfold fetchRawDataPage
        rw [List.drop_zero]
        exact List.take_of_length_le h5
      cases hbf : getLastPointOfPreviousPeriod B t <;> simp [hbf, hpage]
    · rw [if_neg h5]
      have hmap : (List.range ((B.points.length + 4999) / 5000)).map
          (fun i => ((fetchWithConcurrencyLimit
            (fun i => fetchRawDataPage B (i * 5000) 5000)
            ((B.points.length + 4999) / 5000) 10 oracle).results i).getD []) =
          (List.range ((B.points.length + 4999) / 5000)).map
            (fun i => fetchRawDataPage B (i * 5000) 5000) := by
        apply List.map_congr_left
        intro i hi
        rw [(fetchWithConcurrencyLimit_spec
          (fun i => fetchRawDataPage B (i * 5000) 5000)
          ((B.points.length + 4999) / 5000) 10 oracle (by omega)).2.2 i
          (List.mem_range.mp hi)]
        rfl
      have hflat : ((List.range ((B.points.length + 4999) / 5000)).map
          (fun i => fetchRawDataPage B (i * 5000) 5000)).flatten = B.points := by
        have := flatten_chunks 5000 (by omega) B.points.length B.points (le_refl _)
        have h4999 : B.points.length + (5000 - 1) = B.points.length + 4999 := by omega
        rw [h4999] at this
        exact this
      rw [hmap]
      refine List.Perm.trans (List.mergeSort_perm _ _) ?_
      cases hbf : getLastPointOfPreviousPeriod B t <;> simp [hbf, hflat]

lemma foldl_add_eq_sum {α : Type} (g : α → ℚ) :
    ∀ (l : List α) (c : ℚ), l.foldl (fun acc d => acc + g d) c = c + (l.map g).sum := by
  intro l
  induction l with
  | nil => intro c; simp
  | cons a t ih =>
    intro c
    rw [List.foldl_cons, ih, List.map_cons, List.sum_cons]
    ring

/-- C1 counterexample: with one in-window point at 5000 ms and a back-fill
point, the sequential strategy returns the back-fill point (time 0, the
window start) appended after the in-window point, so the returned sequence
`[5000, 0]` is not sorted — refuting "for every invocation of either
retrieval strategy, the returned point sequence is sorted ascending by
time". -/
theorem seq_backfill_unsorted_counterexample :
    (getAllRawMetricsSeq unsortedBackend 0 true 0 []).map Metric.time = [5000, 0] ∧
    ¬ ((getAllRawMetricsSeq unsortedBackend 0 true 0 []).map Metric.time).Pairwise
      (· ≤ ·) := by
  have he : (getAllRawMetricsSeq unsortedBackend 0 true 0 []).map Metric.time
      = [5000, 0] := by
    rw [getAllRawMetricsSeq_eq]
    rfl
  refine ⟨he, ?_⟩
  rw [he]
  decide

/-- C1 (amended): only the multi-page path of the parallel strategy sorts its
output — whenever the backend holds more than 5000 points, the merged
sequence (back-fill point included) is sorted non-decreasingly (not
necessarily strictly) by time; the sequential strategy and the single-page
parallel path instead append the back-fill point after the in-window points,
so their output is unsorted whenever both page data and a back-fill point are
present. -/
theorem parallel_large_output_sorted (B : Backend) (t : ℕ) (oracle : ℕ → ℕ → Bool)
    (h : 5000 < B.points.length) :
    ((getAllRawMetricsParallel B t oracle).map Metric.time).Pairwise (· ≤ ·) := by
  unfold getAllRawMetricsParallel
  simp only
  rw [if_neg (by omega), if_neg (by omega), List.pairwise_map]
  refine List.Pairwise.imp ?_ (List.sorted_mergeSort ?_ ?_ _)
  · intro a b hab
    exact of_decide_eq_true hab
  · intro a b c hab hbc
    have h1 := of_decide_eq_true hab
    have h2 := of_decide_eq_true hbc
    exact decide_eq_true (le_trans h1 h2)
  · intro a b
    rcases Nat.le_total a.time b.time with hab | hba
    · simp [hab]
    · simp [hba]

/-- Witness for the amended C1 theorem at a concrete two-page backend. -/
theorem parallel_large_output_sorted_witness :
    5000 < largeBackend.points.length ∧
    ((getAllRawMetricsParallel largeBackend 0 (fun _ _ => true)).map
      Metric.time).Pairwise (· ≤ ·) := by
  have hlen : largeBackend.points.length = 5001 := by
    simp [largeBackend]
  exact ⟨by omega,
    parallel_large_output_sorted largeBackend 0 (fun _ _ => true) (by omega)⟩

/-- C2: for every task family, every `maxConcurrent ≥ 1` and every completion
order, `_fetchWithConcurrencyLimit` starts the tasks in submission order
(`started = range n`), the in-flight registry size never exceeds
`maxConcurrent`, and result slot `i` holds exactly task `i`'s result. -/
theorem fetchWithConcurrencyLimit_contract {T : Type} (f : ℕ → T)
    (n maxConcurrent : ℕ) (oracle : ℕ → ℕ → Bool) (hmc : 1 ≤ maxConcurrent) :
    (fetchWithConcurrencyLimit f n maxConcurrent oracle).started = List.range n ∧
    (∀ x ∈ (fetchWithConcurrencyLimit f n maxConcurrent oracle).sizeLog,
      x ≤ maxConcurrent) ∧
    (∀ i, i < n →
      (fetchWithConcurrencyLimit f n maxConcurrent oracle).results i = some (f i)) :=
  fetchWithConcurrencyLimit_spec f n maxConcurrent oracle hmc

/-- Witness for C2 at three tasks under cap 1. -/
theorem fetchWithConcurrencyLimit_contract_witness :
    (1 : ℕ) ≤ 1 ∧
    ((fetchWithConcurrencyLimit (fun i => i) 3 1 (fun _ _ => true)).started =
        List.range 3 ∧
      (∀ x ∈ (fetchWithConcurrencyLimit (fun i => i) 3 1
        (fun _ _ => true)).sizeLog, x ≤ 1) ∧
      (∀ i, i < 3 → (fetchWithConcurrencyLimit (fun i => i) 3 1
        (fun _ _ => true)).results i = some i)) :=
  ⟨le_refl 1,
    fetchWithConcurrencyLimit_contract (fun i => i) 3 1 (fun _ _ => true) (le_refl 1)⟩

/-- C3: against a backend that always answers 429, `_fetchRawDataPage` issues
exactly 4 requests (3 retries), waits 1 s, 2 s, 3 s before the successive
retries, and returns whatever the final response contained (here the empty
fallback), without raising. -/
theorem fetchRawDataPage_rate_limit_retries (resp : ℕ → PageResponse)
    (h : ∀ k, (resp k).status = 429) :
    fetchRawDataPageRetry resp 0 3 =
      { attempts := 4, waits := [1000, 2000, 3000],
        result := (resp 3).data.getD [] } := by
  rw [fetchRawDataPageRetry]
  rw [dif_pos ⟨h 0, by omega⟩]
  rw [fetchRawDataPageRetry]
  rw [dif_pos ⟨h 1, by omega⟩]
  rw [fetchRawDataPageRetry]
  rw [dif_pos ⟨h 2, by omega⟩]
  rw [fetchRawDataPageRetry]
  rw [dif_neg (by omega)]

/-- Witness for C3 at the constant rate-limited backend. -/
theorem fetchRawDataPage_rate_limit_retries_witness :
    (∀ k, (alwaysRateLimited k).status = 429) ∧
    fetchRawDataPageRetry alwaysRateLimited 0 3 =
      { attempts := 4, waits := [1000, 2000, 3000], result := [] } :=
  ⟨fun _ => rfl, by
    rw [fetchRawDataPage_rate_limit_retries alwaysRateLimited (fun _ => rfl)]
    rfl⟩

/-- C4 counterexample: a count-query response with no `data` member makes
`_getTotalCount` return the count 0 (via `|| 0`), not an error — refuting
"treats the condition as fatal and propagates an error; never silently
defaults the returned count to 0". -/
theorem getTotalCount_missing_response_counterexample :
    getTotalCount { data := none } "t" = JSQ.num 0 := rfl

/-- C4 (amended): for every malformed or missing count-query response — no
`data`, an empty `points` list, or no count value for the tag — `_getTotalCount`
silently defaults the returned count to 0 (which sends the parallel strategy
down its empty-data path); it does not raise. -/
theorem getTotalCount_defaults_to_zero (resp : CountResponse) (tag : String)
    (h : resp.data = none ∨
      (∃ d, resp.data = some d ∧ d.points = []) ∨
      (∃ d p, resp.data = some d ∧ d.points.head? = some p ∧
        p.values.lookup tag = none)) :
    getTotalCount resp tag = JSQ.num 0 := by
  unfold getTotalCount
  rcases h with h | ⟨d, hd, hp⟩ | ⟨d, p, hd, hp, hv⟩
  · rw [h]
    rfl
  · rw [hd]
    simp [hp, jsOrZero]
  · rw [hd]
    simp [hp, hv, jsOrZero]

/-- Witness for the amended C4 theorem at a response with an empty point
list. -/
theorem getTotalCount_defaults_to_zero_witness :
    (({ data := some { points := [] } } : CountResponse).data = none ∨
      (∃ d, ({ data := some { points := [] } } : CountResponse).data = some d ∧
        d.points = []) ∨
      (∃ d p, ({ data := some { points := [] } } : CountResponse).data = some d ∧
        d.points.head? = some p ∧ p.values.lookup "t" = none)) ∧
    getTotalCount { data := some { points := [] } } "t" = JSQ.num 0 :=
  ⟨Or.inr (Or.inl ⟨{ points := [] }, rfl, rfl⟩),
    getTotalCount_defaults_to_zero { data := some { points := [] } } "t"
      (Or.inr (Or.inl ⟨{ points := [] }, rfl, rfl⟩))⟩

/-- C6: for every synthetic backend, window start and completion order, the
sequential strategy and the count-prefetch-parallel strategy return identical
point sets up to order (a permutation of the backend's page data plus the
optional back-fill point). -/
theorem strategies_return_same_point_sets (B : Backend) (t : ℕ)
    (oracle : ℕ → ℕ → Bool) :
    (getAllRawMetricsParallel B t oracle).Perm (getAllRawMetricsSeq B t true 0 []) := by
  rw [getAllRawMetricsSeq_eq]
  exact getAllRawMetricsParallel_perm B t oracle

/-- C7 counterexample: with `window.from = 500` ms (not second-aligned) the
back-fill point surfaces with time 0 — `Date.parse` of the truncated ISO
string — not with `window.from` exactly, refuting "its time equals
`window.from` exactly". -/
theorem backfill_time_truncated_counterexample :
    (getAllRawMetricsSeq subSecondBackend 500 true 0 []).map Metric.time = [0] ∧
    (0 : ℕ) ≠ 500 := by
  constructor
  · rw [getAllRawMetricsSeq_eq]
    rfl
  · decide

/-- C7 (amended): each strategy's output contains the backend's page points
plus at most one back-fill point, and when a back-fill point is present its
time is `window.from` truncated down to a whole second (equal to `window.from`
exactly iff `window.from` is second-aligned). -/
theorem backfill_at_most_one_time_truncated (B : Backend) (t : ℕ)
    (oracle : ℕ → ℕ → Bool) :
    (∀ p, getLastPointOfPreviousPeriod B t = some p → p.time = t / 1000 * 1000) ∧
    getAllRawMetricsSeq B t true 0 [] =
      B.points ++ (getLastPointOfPreviousPeriod B t).toList ∧
    (getAllRawMetricsParallel B t oracle).Perm
      (B.points ++ (getLastPointOfPreviousPeriod B t).toList) := by
  refine ⟨?_, getAllRawMetricsSeq_eq B t, getAllRawMetricsParallel_perm B t oracle⟩
  intro p hp
  unfold getLastPointOfPreviousPeriod at hp
  cases hbf : B.backfill with
  | none =>
    rw [hbf] at hp
    cases hp
  | some q =>
    rw [hbf] at hp
    injection hp with hp2
    rw [← hp2]
    rfl

/-- Witness for the amended C7 theorem at `window.from = 1500` ms. -/
theorem backfill_at_most_one_time_truncated_witness :
    getLastPointOfPreviousPeriod subSecondBackend 1500 =
      some { time := 1000, values := [("t", JSQ.num 7)] } ∧
    ({ time := 1000, values := [("t", JSQ.num 7)] } : Metric).time =
      1500 / 1000 * 1000 :=
  ⟨rfl,
    (backfill_at_most_one_time_truncated subSecondBackend 1500 (fun _ _ => true)).1
      { time := 1000, values := [("t", JSQ.num 7)] } rfl⟩

/-- C5: `generateNormalDistributionData` does return the empty sequence when
`n ≤ 1`, but the `sd == 0` guard the spec requires is missing from the code:
at `mean = 0, sd = 0, n = 2, binSize = 1, maxY = 5` the sampled `y` is NaN
(division 0/0 inside the density), so the function returns the non-empty
sequence `[(0, NaN)]` instead of the empty one; and at `binSize = 0` — the
value the real caller passes, since `binSize = sd / 2` — the loop never
terminates (`none` for every fuel).  This holds for every float realisation
`E` of `Math.exp` and `sqrt2pi` of `Math.sqrt(2π)`. -/
theorem generateNormalDistributionData_degenerate (E : ℚ → ℚ) (sqrt2pi : ℚ) :
    (∀ mean sd binSize maxY fuel,
      generateNormalDistributionData E sqrt2pi mean sd 1 binSize maxY fuel =
        some []) ∧
    generateNormalDistributionData E sqrt2pi (.num 0) (.num 0) 2 (.num 1) (.num 5) 2 =
      some [(.num 0, .nan)] ∧
    (∀ fuel, generateNormalDistributionData E sqrt2pi (.num 0) (.num 0) 2 (.num 0)
      (.num 5) fuel = none) := by
  refine ⟨?_, ?_, ?_⟩
  · intro mean sd binSize maxY fuel
    unfold generateNormalDistributionData
    rw [if_pos (by omega)]
  · norm_num [generateNormalDistributionData, ndLoop, normalDistribution, jexp,
      jsub, jadd, jneg, jmul, jdiv, jleB, jltB]
  · intro fuel
    unfold generateNormalDistributionData
    rw [if_neg (by omega)]
    have hlo : jsub (.num 0) (jmul (.num 5) (.num 0)) = JSQ.num 0 := by
      show JSQ.num (0 + -(5 * 0)) = JSQ.num 0
      norm_num
    have hhi : jadd (.num 0) (jmul (.num 5) (.num 0)) = JSQ.num 0 := by
      show JSQ.num (0 + 5 * 0) = JSQ.num 0
      norm_num
    have hloop : ∀ (fl : ℕ) (q : ℚ), q = 0 →
        ndLoop E sqrt2pi (.num 0) (.num 0) (.num ((2 : ℕ) : ℚ)) (.num 0) (.num 0)
          (.num q) fl = none := by
      intro fl
      induction fl with
      | zero =>
        intro q hq
        rfl
      | succ fl ih =>
        intro q hq
        rw [ndLoop]
        have hle : jleB (.num q) (.num 0) = true := by
          simp [jleB, hq]
        rw [hle]
        have hadd : jadd (.num q) (.num 0) = JSQ.num (q + 0) := rfl
        rw [if_pos rfl, hadd, ih (q + 0) (by rw [hq]; ring)]
    simp only [hlo, hhi]
    rw [hloop fuel 0 rfl]

lemma getAllRawMetricsParallel_small (B : Backend) (t : ℕ) (oracle : ℕ → ℕ → Bool)
    (h0 : ¬ B.points.length = 0) (h5 : B.points.length ≤ 5000)
    (hbf : B.backfill = none) :
    getAllRawMetricsParallel B t oracle = B.points := by
  unfold getAllRawMetricsParallel
  simp only
  rw [if_neg h0, if_pos h5]
  have hpage : fetchRawDataPage B 0 5000 = B.points := by
    unfold fetchRawDataPage
    rw [List.drop_zero]
    exact List.take_of_length_le h5
  unfold getLastPointOfPreviousPeriod
  rw [hbf, hpage]

lemma infValueBackend_model_eq :
    getAllRawMetricsModel infValueBackend 0 (fun _ _ => true) "t" (JSQ.num 1) 2 =
      [(0, JSQ.inf)] := by
  unfold getAllRawMetricsModel
  rw [getAllRawMetricsParallel_small infValueBackend 0 (fun _ _ => true)
    (by norm_num [infValueBackend]) (by norm_num [infValueBackend]) rfl]
  norm_num [processMetrics, infValueBackend, jsIsNaN, jmul, jsToFixedParse,
    List.lookup]

/-- C8 counterexample: a wire point whose value is +Infinity passes the
`!isNaN` filter of `getAllRawMetrics` and is returned to the caller with the
non-finite value +Infinity — refuting "every point in the sequence returned
by getAllRawMetrics has a finite value". -/
theorem nonfinite_value_propagates_counterexample :
    getAllRawMetricsModel infValueBackend 0 (fun _ _ => true) "t" (JSQ.num 1) 2 =
      [(0, JSQ.inf)] ∧ jsIsFinite JSQ.inf = false :=
  ⟨infValueBackend_model_eq, rfl⟩

/-- C8 (amended): `getAllRawMetrics` drops exactly the wire points whose value
is NaN (or missing): for every finite nonzero factor, no returned point has a
NaN value — but values of ±Infinity are not filtered out and propagate to the
caller, so returned values need not be finite. -/
theorem nan_values_dropped (B : Backend) (t : ℕ) (oracle : ℕ → ℕ → Bool)
    (tag : String) (f : ℚ) (decimals : ℕ) (hf : f ≠ 0) :
    ∀ p ∈ getAllRawMetricsModel B t oracle tag (JSQ.num f) decimals,
      jsIsNaN p.2 = false := by
  intro p hp
  unfold getAllRawMetricsModel processMetrics at hp
  simp only [List.mem_map, List.mem_filter] at hp
  obtain ⟨d, ⟨_, hnan⟩, hpd⟩ := hp
  rw [← hpd]
  cases hd2 : d.2 with
  | nan =>
    rw [hd2] at hnan
    simp [jsIsNaN] at hnan
  | num q =>
    simp [jmul, jsToFixedParse, jsIsNaN]
  | inf =>
    simp only [jmul]
    rw [if_neg hf]
    by_cases h0 : 0 < f
    · rw [if_pos h0]
      rfl
    · rw [if_neg h0]
      rfl
  | ninf =>
    simp only [jmul]
    rw [if_neg hf]
    by_cases h0 : 0 < f
    · rw [if_pos h0]
      rfl
    · rw [if_neg h0]
      rfl

/-- Witness for the amended C8 theorem: the +Infinity point kept by the filter
is indeed not NaN. -/
theorem nan_values_dropped_witness :
    ((1 : ℚ) ≠ 0) ∧ jsIsNaN JSQ.inf = false := by
  refine ⟨one_ne_zero, ?_⟩
  have hmem : ((0 : ℕ), JSQ.inf) ∈
      getAllRawMetricsModel infValueBackend 0 (fun _ _ => true) "t" (JSQ.num 1) 2 := by
    rw [infValueBackend_model_eq]
    simp
  exact nan_values_dropped infValueBackend 0 (fun _ _ => true) "t" 1 2 one_ne_zero
    (0, JSQ.inf) hmem

/-- C9: `calculateStatistics` computes the arithmetic mean and the population
variance (divisor `n`, not `n − 1`), with `standardDeviation = sqrt variance`;
on values `[1, 2, 3, 4, 5]` it yields mean 3, variance 2 and standard
deviation √2. -/
theorem calculateStatistics_population (data : List (ℕ × ℚ)) (h : data ≠ []) :
    (calculateStatisticsMean data = (data.map Prod.snd).sum / (data.length : ℚ) ∧
     calculateStatisticsVariance data =
       ((data.map (fun d => (d.2 - calculateStatisticsMean data) ^ 2)).sum) /
         (data.length : ℚ) ∧
     (calculateStatistics data).2 =
       Real.sqrt ((calculateStatisticsVariance data : ℚ) : ℝ)) ∧
    (calculateStatisticsMean exampleData = 3 ∧
     calculateStatisticsVariance exampleData = 2 ∧
     (calculateStatistics exampleData).2 = Real.sqrt 2) := by
  have hmean : ∀ l : List (ℕ × ℚ),
      calculateStatisticsMean l = (l.map Prod.snd).sum / (l.length : ℚ) := by
    intro l
    unfold calculateStatisticsMean
    rw [foldl_add_eq_sum Prod.snd l 0, zero_add]
  have hvar : ∀ l : List (ℕ × ℚ),
      calculateStatisticsVariance l =
        ((l.map (fun d => (d.2 - calculateStatisticsMean l) ^ 2)).sum) /
          (l.length : ℚ) := by
    intro l
    unfold calculateStatisticsVariance
    rw [foldl_add_eq_sum (fun d => (d.2 - calculateStatisticsMean l) ^ 2) l 0,
      zero_add]
  have hmean5 : calculateStatisticsMean exampleData = 3 := by
    rw [hmean]
    norm_num [exampleData]
  have hvar5 : calculateStatisticsVariance exampleData = 2 := by
    rw [hvar, hmean5]
    norm_num [exampleData]
  refine ⟨⟨hmean data, hvar data, rfl⟩, hmean5, hvar5, ?_⟩
  show Real.sqrt ((calculateStatisticsVariance exampleData : ℚ) : ℝ) = Real.sqrt 2
  rw [hvar5]
  norm_num

/-- Witness for C9 at the spec's scenario data. -/
theorem calculateStatistics_population_witness :
    exampleData ≠ [] ∧
    (calculateStatisticsMean exampleData = 3 ∧
     calculateStatisticsVariance exampleData = 2 ∧
     (calculateStatistics exampleData).2 = Real.sqrt 2) :=
  ⟨by simp [exampleData], (calculateStatistics_population exampleData
    (by simp [exampleData])).2⟩

/-- C10 counterexample: the caller checks non-emptiness before the
`ignoreZero` filter, so with `ignoreZero = true` and the single fetched point
having value 0, `calculateStatistics` is invoked on the empty sequence —
refuting "the caller establishes non-emptiness of the sequence actually
passed to calculateStatistics for every setting of ignoreZero". -/
theorem statisticsInput_empty_counterexample :
    statisticsInput (some [(0, 0)]) true = Except.ok ([] : List (ℕ × ℚ)) := by
  unfold statisticsInput
  norm_num

/-- C10 (amended): the non-emptiness check precedes the `ignoreZero` filter;
the sequence passed to `calculateStatistics` is guaranteed non-empty whenever
`ignoreZero` is false, but with `ignoreZero = true` the filter may leave it
empty. -/
theorem statisticsInput_nonempty_when_not_ignoring_zero
    (data : Option (List (ℕ × ℚ))) (l : List (ℕ × ℚ))
    (h : statisticsInput data false = Except.ok l) : 1 ≤ l.length := by
  unfold statisticsInput at h
  split at h
  · cases h
  · split at h
    · cases h
    · rename_i hd
      simp only [Bool.false_eq_true, if_false] at h
      injection h with h2
      rw [← h2]
      omega

/-- Witness for the amended C10 theorem at a one-point dataset. -/
theorem statisticsInput_nonempty_when_not_ignoring_zero_witness :
    statisticsInput (some [(0, 5)]) false = Except.ok [((0 : ℕ), (5 : ℚ))] ∧
    1 ≤ [((0 : ℕ), (5 : ℚ))].length :=
  ⟨rfl, statisticsInput_nonempty_when_not_ignoring_zero (some [(0, 5)]) [(0, 5)] rfl⟩
